import Mathlib

/-!
Shallow embedding of the routing and resilience engine of the
Cost-SLO-Aware LLM Inference Router (Go), together with proofs checking the
specification's claims against it.

Modelling conventions:
* Go `time.Time` / `time.Duration` values are nanosecond counts.  Timestamps
  produced by the monotonic clock are `Nat`; `time.Duration` is the Go `int64`
  nanosecond count and is modelled as `Int` (with explicit two's-complement
  wrapping where an overflow could occur, see `wrap64`).
* Latencies handed to `Stats.record` come from `time.Since(...).Milliseconds()`
  of a monotonic clock, hence are nonnegative; they are modelled as `Nat`.
* Go `float64` values (costs, error rates, jitter draws) are modelled as exact
  rationals.  The single float computation whose rounding could matter,
  `math.Ceil(0.95*float64(n))` in `Stats.P95LatencyMs`, agrees with the exact
  rational ceiling `⌈(0.95:ℚ)*n⌉` for every list length `n` reachable here
  (the product `float64(0.95)*n` differs from `19n/20` by less than `2⁻⁴⁰` for
  `n ≤ 2³⁰`, and `19n/20` is never within that distance of a different side of
  an integer boundary), so the model uses the exact ceiling.
* `rand.Float64` draws are supplied as an explicit stream of rationals.
* `sync.Mutex` protection and goroutine interleaving are outside the model:
  every operation is modelled as an atomic state transformer, which is the
  granularity at which the claims are stated.
-/

namespace Router

/-- Go `providers.Outcome`: one call result in the stats window.  The `At`
timestamp field only feeds `ErrorRateSince`, which no claim touches, and is
omitted. -/
structure Outcome where
  latencyMs : Nat
  err : Bool
deriving Repr, DecidableEq

/-- Go `providers.Stats`: rolling window of outcomes (mutex omitted, see
module comment). -/
structure Stats where
  outcomes : List Outcome
  windowSize : Nat
deriving Repr, DecidableEq

/-- Go `providers.NewStats`. -/
def NewStats (window : Nat) : Stats :=
  { outcomes := [], windowSize := window }

/-- Go `Stats.Record`: append the outcome; if the window overflows keep the
last `windowSize` entries. -/
def Stats.record (s : Stats) (latencyMs : Nat) (err : Bool) : Stats :=
  let l := s.outcomes ++ [{ latencyMs := latencyMs, err := err }]
  { s with outcomes := if s.windowSize < l.length then l.drop (l.length - s.windowSize) else l }

/-- Go `Stats.ErrorRate`: fraction of outcomes with `Err = true`; 0 when the
window is empty. -/
def Stats.errorRate (s : Stats) : ℚ :=
  if s.outcomes = [] then 0
  else ((s.outcomes.countP (·.err) : ℚ)) / (s.outcomes.length : ℚ)

/-- Latencies of the successful outcomes of a window, in window order
(the `vals` slice built by Go `Stats.P95LatencyMs`). -/
def latsOf (l : List Outcome) : List Nat :=
  (l.filter (fun o => !o.err)).map (·.latencyMs)

/-- The value `int(math.Ceil(0.95*float64(n)))` computed by Go
`Stats.P95LatencyMs`, i.e. `⌈0.95·n⌉`, as the executable natural-number
formula `(19n + 19) / 20` (`natCeilIdx_eq_ceil` proves the equality with the
rational ceiling; see the module comment for why the float computation is
exact here). -/
def natCeilIdx (n : Nat) : Nat :=
  (19 * n + 19) / 20

/-- Go `Stats.P95LatencyMs`: successful latencies only, ascending sort,
index `ceil(0.95·N) − 1` clamped below by 0 and above by `N−1`.
`sort.Ints` is modelled by `insertionSort`; on `Nat` with a total order any
sorting algorithm returns the same list. -/
def Stats.p95LatencyMs (s : Stats) : Nat :=
  if s.outcomes = [] then 0
  else
    let vals := latsOf s.outcomes
    if vals = [] then 0
    else
      let sorted := vals.insertionSort (· ≤ ·)
      let idx0 : Int := (natCeilIdx vals.length : Int) - 1
      let idx1 : Int := if idx0 < 0 then 0 else idx0
      let idx : Int := if (vals.length : Int) ≤ idx1 then (vals.length : Int) - 1 else idx1
      sorted.getD idx.toNat 0

/-- The percentile index exactly as the specification words it: index
`ceil(0.95·N) − 1` clamped into `[0, N−1]`. -/
def p95Index (n : Nat) : Nat :=
  (min (max (⌈(0.95 : ℚ) * (n : ℚ)⌉ - 1) 0) ((n : Int) - 1)).toNat

/-- `p95_latency_ms` as the specification describes it (used to check the code
definition against the spec sentence): 0 with no successful outcome, otherwise
the element of the ascending sort of the successful latencies at the clamped
ceiling index. -/
def specP95 (s : Stats) : Nat :=
  let vals := latsOf s.outcomes
  if vals = [] then 0
  else (vals.insertionSort (· ≤ ·)).getD (p95Index vals.length) 0

/-- Go `providers.CircuitBreaker`.  The Go field `open` is a Lean keyword and
is rendered `isOpen`. -/
structure CircuitBreaker where
  window : List Bool
  windowSize : Nat
  isOpen : Bool
  openedAt : Nat
  cooldown : Nat
  halfOpenProbe : Bool
deriving Repr, DecidableEq

/-- Go `providers.NewCircuitBreaker`. -/
def NewCircuitBreaker (windowSize : Nat) (cooldown : Nat) : CircuitBreaker :=
  { window := [], windowSize := windowSize, isOpen := false, openedAt := 0,
    cooldown := cooldown, halfOpenProbe := false }

/-- Go `CircuitBreaker.Allow`, with the call time `now` made explicit
(`time.Since(cb.openedAt) ≥ cooldown` becomes `cooldown ≤ now − openedAt`).
Returns the boolean result together with the post state. -/
def CircuitBreaker.allow (cb : CircuitBreaker) (now : Nat) : Bool × CircuitBreaker :=
  if !cb.isOpen then (true, cb)
  else if cb.cooldown ≤ now - cb.openedAt then
    if !cb.halfOpenProbe then (true, { cb with halfOpenProbe := true })
    else (false, cb)
  else (false, cb)

/-- Go `CircuitBreaker.OnResult`, with the call time `now` made explicit. -/
def CircuitBreaker.onResult (cb : CircuitBreaker) (err : Bool) (now : Nat) : CircuitBreaker :=
  let w0 := cb.window ++ [err]
  let w := if cb.windowSize < w0.length then w0.drop (w0.length - cb.windowSize) else w0
  if cb.halfOpenProbe then
    if !err then { cb with window := [], isOpen := false, halfOpenProbe := false }
    else { cb with window := w, isOpen := true, openedAt := now, halfOpenProbe := false }
  else
    if cb.windowSize ≤ w.length ∧ (1 : ℚ) / 2 < (w.countP id : ℚ) / (w.length : ℚ) then
      { cb with window := w, isOpen := true, openedAt := now }
    else { cb with window := w }

/-! ### Helper lemmas on sorted lists and the percentile index -/

/-- In a `≤`-sorted list of naturals, fewer than `i + 1` elements lie strictly
below the element at index `i`. -/
theorem countP_lt_self_le_of_sorted :
    ∀ (L : List Nat), L.Sorted (· ≤ ·) → ∀ (i : Nat) (h : i < L.length),
      L.countP (fun a => decide (a < L.get ⟨i, h⟩)) ≤ i := by
  intro L
  induction L with
  | nil => intro _ i h; exact absurd h (Nat.not_lt_zero i)
  | cons b t ih =>
    intro hs i h
    rcases List.sorted_cons.mp hs with ⟨hb, ht⟩
    cases i with
    | zero =>
      simp only [List.get, List.countP_cons]
      have h0 : t.countP (fun a => decide (a < b)) = 0 :=
        List.countP_eq_zero.mpr (fun a ha => by simpa using Nat.not_lt.mpr (hb a ha))
      simp [h0]
    | succ i =>
      have hlt : i < t.length := Nat.lt_of_succ_lt_succ h
      have hih := ih ht i hlt
      simp only [List.get_eq_getElem] at hih ⊢
      simp only [List.getElem_cons_succ, List.countP_cons]
      by_cases hcase : b < t[i] <;> simp [hcase] <;> omega

/-- In a `≤`-sorted list of naturals, if at most `i` elements lie strictly
below `x`, then the element at index `i` is at least `x`. -/
theorem le_get_of_countP_lt_le :
    ∀ (L : List Nat), L.Sorted (· ≤ ·) → ∀ (x i : Nat) (h : i < L.length),
      L.countP (fun a => decide (a < x)) ≤ i → x ≤ L.get ⟨i, h⟩ := by
  have key : ∀ (L : List Nat), L.Sorted (· ≤ ·) → ∀ (x i : Nat) (h : i < L.length),
      L.get ⟨i, h⟩ < x → i < L.countP (fun a => decide (a < x)) := by
    intro L
    induction L with
    | nil => intro _ x i h; exact absurd h (Nat.not_lt_zero i)
    | cons b t ih =>
      intro hs x i h hlt
      rcases List.sorted_cons.mp hs with ⟨hb, ht⟩
      cases i with
      | zero =>
        simp only [List.get] at hlt
        simp [List.countP_cons, hlt]
      | succ i =>
        have hi : i < t.length := Nat.lt_of_succ_lt_succ h
        simp only [List.get] at hlt
        have h1 : i < t.countP (fun a => decide (a < x)) := ih ht x i hi hlt
        have h2 : b < x := lt_of_le_of_lt (hb _ (t.get_mem i hi)) hlt
        simp only [List.countP_cons, h2]
        simp
        omega
  intro L hs x i h hc
  by_contra hx
  have := key L hs x i h (Nat.lt_of_not_le hx)
  omega

/-- `countP` is monotone under sublists. -/
theorem countP_le_of_sublist {l₁ l₂ : List Nat} (p : Nat → Bool) (h : l₁.Sublist l₂) :
    l₁.countP p ≤ l₂.countP p := by
  rw [List.countP_eq_length_filter, List.countP_eq_length_filter]
  exact (h.filter p).length_le

/-- The spec's clamped index is monotone in the sample count. -/
theorem p95Index_mono {m n : Nat} (h : m ≤ n) : p95Index m ≤ p95Index n := by
  unfold p95Index
  have hcast : ((m : ℚ)) ≤ (n : ℚ) := by exact_mod_cast h
  have hceil : ⌈(0.95 : ℚ) * (m : ℚ)⌉ ≤ ⌈(0.95 : ℚ) * (n : ℚ)⌉ := by
    apply Int.ceil_le_ceil
    nlinarith
  have hN : ((m : Int)) ≤ (n : Int) := by exact_mod_cast h
  apply Int.toNat_le_toNat
  apply min_le_min _ (by omega)
  apply max_le_max _ le_rfl
  omega

/-- For a nonempty sample, the spec's clamped index is a valid index. -/
theorem p95Index_lt {n : Nat} (h : 1 ≤ n) : p95Index n < n := by
  unfold p95Index
  have h1 : min (max (⌈(0.95 : ℚ) * (n : ℚ)⌉ - 1) 0) ((n : Int) - 1) ≤ (n : Int) - 1 :=
    min_le_right _ _
  have h2 : (min (max (⌈(0.95 : ℚ) * (n : ℚ)⌉ - 1) 0) ((n : Int) - 1)).toNat ≤
      ((n : Int) - 1).toNat := Int.toNat_le_toNat h1
  have h3 : ((n : Int) - 1).toNat = n - 1 := by omega
  omega

/-- `(19n + 19) / 20` is the rational ceiling `⌈0.95·n⌉`. -/
theorem natCeilIdx_eq_ceil (n : Nat) :
    (natCeilIdx n : Int) = ⌈(0.95 : ℚ) * (n : ℚ)⌉ := by
  have h95 : (0.95 : ℚ) = 19 / 20 := by norm_num
  have h1 : 20 * ((19 * n + 19) / 20) ≤ 19 * n + 19 := by omega
  have h3 : 19 * n ≤ 20 * ((19 * n + 19) / 20) := by omega
  have h1q : (20 : ℚ) * ((19 * n + 19) / 20 : Nat) ≤ 19 * n + 19 := by exact_mod_cast h1
  have h3q : (19 : ℚ) * n ≤ 20 * ((19 * n + 19) / 20 : Nat) := by exact_mod_cast h3
  symm
  rw [Int.ceil_eq_iff]
  constructor
  · unfold natCeilIdx
    simp only [Int.cast_natCast]
    rw [h95]
    linarith
  · unfold natCeilIdx
    simp only [Int.cast_natCast]
    rw [h95]
    linarith

/-- The if-chain clamp used in `Stats.p95LatencyMs` computes the spec's
`min`/`max` clamped index. -/
theorem p95_clamp_eq (n : Nat) :
    (let idx0 : Int := (natCeilIdx n : Int) - 1
     let idx1 : Int := if idx0 < 0 then 0 else idx0
     let idx : Int := if (n : Int) ≤ idx1 then (n : Int) - 1 else idx1
     idx.toNat) = p95Index n := by
  unfold p95Index
  rw [natCeilIdx_eq_ceil]
  by_cases h0 : (⌈(0.95 : ℚ) * (n : ℚ)⌉ - 1) < 0
  · have hn : 0 < (n : ℚ) ∨ (n : ℚ) = 0 := by
      rcases Nat.eq_zero_or_pos n with h | h
      · right; exact_mod_cast h
      · left; exact_mod_cast h
    by_cases hn0 : (n : Int) ≤ 0
    · have : n = 0 := by omega
      subst this
      norm_num
    · have : ¬ ((n : Int) ≤ (0 : Int)) := hn0
      simp only [h0, if_true]
      rw [if_neg this]
      omega
  · simp only [h0, if_false]
    push_neg at h0
    have hle : ⌈(0.95 : ℚ) * (n : ℚ)⌉ ≤ (n : Int) := by
      apply Int.ceil_le.mpr
      push_cast
      nlinarith [Nat.cast_nonneg (α := ℚ) n]
    by_cases hge : (n : Int) ≤ ⌈(0.95 : ℚ) * (n : ℚ)⌉ - 1
    · omega
    · rw [if_neg hge]
      omega

/-- `Stats.p95LatencyMs` unfolded through the clamp equality: with a nonempty
window it reads the sorted successful latencies at `p95Index`. -/
theorem p95_eq_getD (s : Stats) (h : ¬ latsOf s.outcomes = []) :
    s.p95LatencyMs =
      ((latsOf s.outcomes).insertionSort (· ≤ ·)).getD (p95Index (latsOf s.outcomes).length) 0 := by
  have hout : ¬ s.outcomes = [] := by
    intro he
    apply h
    simp [latsOf, he]
  unfold Stats.p95LatencyMs
  simp only [hout, if_false, h]
  rw [p95_clamp_eq]

/-- Claim C7: `p95_latency_ms()` is 0 when the window has no successful
outcome, and otherwise equals the element at index `ceil(0.95·N) − 1`, clamped
into `[0, N−1]`, of the ascending sort of the successful latencies
(`specP95` is that description verbatim). -/
theorem p95LatencyMs_eq_specP95 (s : Stats) : s.p95LatencyMs = specP95 s := by
  by_cases h : latsOf s.outcomes = []
  · unfold Stats.p95LatencyMs specP95
    by_cases hout : s.outcomes = [] <;> simp [hout, h]
  · rw [p95_eq_getD s h]
    unfold specP95
    simp [h]

/-- Claim C1: `Allow()` returns true when the breaker is closed; returns false
while open before the cooldown has elapsed; and once the cooldown has elapsed
it returns true iff no half-open probe is outstanding, marking the probe
outstanding exactly when it returns true (so at most one probe is outstanding
at any time), and leaving the breaker untouched when it returns false. -/
theorem circuitBreaker_allow_spec (cb : CircuitBreaker) (now : Nat)
    (hclock : cb.openedAt ≤ now) :
    (cb.isOpen = false → cb.allow now = (true, cb)) ∧
    (cb.isOpen = true → now - cb.openedAt < cb.cooldown → cb.allow now = (false, cb)) ∧
    (cb.isOpen = true → cb.cooldown ≤ now - cb.openedAt →
      ((cb.allow now).1 = true ↔ cb.halfOpenProbe = false) ∧
      (cb.halfOpenProbe = false → cb.allow now = (true, { cb with halfOpenProbe := true })) ∧
      (cb.halfOpenProbe = true → cb.allow now = (false, cb))) := by
  refine ⟨?_, ?_, ?_⟩
  · intro h
    simp [CircuitBreaker.allow, h]
  · intro h hcool
    simp [CircuitBreaker.allow, h, Nat.not_le.mpr hcool]
  · intro h hcool
    refine ⟨?_, ?_, ?_⟩
    · constructor
      · intro ha
        by_contra hp
        have hp' : cb.halfOpenProbe = true := by
          cases hx : cb.halfOpenProbe
          · exact absurd hx hp
          · rfl
        simp [CircuitBreaker.allow, h, hcool, hp'] at ha
      · intro hp
        simp [CircuitBreaker.allow, h, hcool, hp]
    · intro hp
      simp [CircuitBreaker.allow, h, hcool, hp]
    · intro hp
      simp [CircuitBreaker.allow, h, hcool, hp]

/-- Witness for C1 at a concrete closed breaker and a concrete open breaker
before and after its cooldown. -/
theorem circuitBreaker_allow_spec_witness :
    ((NewCircuitBreaker 20 100).openedAt ≤ 5) ∧
    ((NewCircuitBreaker 20 100).isOpen = false →
      (NewCircuitBreaker 20 100).allow 5 = (true, NewCircuitBreaker 20 100)) := by
  have h := circuitBreaker_allow_spec (NewCircuitBreaker 20 100) 5 (by decide)
  exact ⟨by decide, h.1⟩

/-! ### Resilience wrapper (`ResilientProvider.Complete`) -/

/-- Two's-complement wrap of an `Int` into the `int64` range, for the Go
`time.Duration` arithmetic in the backoff computation. -/
def wrap64 (n : Int) : Int :=
  (n + 2 ^ 63) % 2 ^ 64 - 2 ^ 63

/-- Go `providers.ResilienceOptions`.  Durations are `int64` nanoseconds
(`Int`); `MaxRetries` is only ever configured nonnegative and is modelled as
`Nat`; `JitterFrac` is a `float64` modelled as `ℚ`. -/
structure ResilienceOptions where
  timeout : Int := 0
  maxRetries : Nat := 0
  baseBackoff : Int := 0
  maxBackoff : Int := 0
  jitterFrac : ℚ := 0
  cbWindowSize : Nat := 0
  cbCooldown : Nat := 0

/-- Go `providers.randomJitter` with the `rand.Float64()` draw `u` passed in:
if `frac ≤ 0` the duration is returned unchanged, otherwise it is scaled by
`1 + (2u − 1)·frac` and truncated back to an integer nanosecond count. -/
def randomJitter (d : Int) (frac : ℚ) (u : ℚ) : Int :=
  if frac ≤ 0 then d
  else ⌊(d : ℚ) * (1 + (u * 2 - 1) * frac)⌋

/-- The backoff duration Go computes for a failed attempt `attempt`:
`BaseBackoff * (1 << (attempt−1))` in wrapping `int64` arithmetic
(`1 << k` is `0` for `k ≥ 64`, which `wrap64 (2^k)` also gives), capped at
`MaxBackoff` only when `MaxBackoff > 0`. -/
def backoffNs (opts : ResilienceOptions) (attempt : Nat) : Int :=
  let raw := wrap64 (opts.baseBackoff * wrap64 (2 ^ (attempt - 1)))
  if 0 < opts.maxBackoff ∧ opts.maxBackoff < raw then opts.maxBackoff else raw

/-- Nanoseconds actually slept after failed attempt `attempt`
(`time.Sleep` returns immediately on a nonpositive duration, hence `toNat`). -/
def sleepNs (opts : ResilienceOptions) (attempt : Nat) (u : ℚ) : Nat :=
  (randomJitter (backoffNs opts attempt) opts.jitterFrac u).toNat

/-- Oracle for one inner-provider call: what `rp.inner.Complete` returns for a
given attempt number, together with the attempt's wall-clock duration. -/
structure AttemptResult where
  text : String
  costUSD : ℚ
  err : Bool
  errMsg : String
  durNs : Nat

/-- Observable result of one `ResilientProvider.Complete` call: the returned
values, the post `Stats` and `CircuitBreaker` states, the number of inner
attempts issued, the backoff sleeps performed, and the finish time. -/
structure RunResult where
  ok : Bool
  text : String
  costUSD : ℚ
  latencyMs : Nat
  errMsg : Option String
  stats : Stats
  cb : CircuitBreaker
  attempts : Nat
  sleepsNs : List Nat
  endNs : Nat

/-- The retry loop of Go `ResilientProvider.Complete`.  `attempt` is the
1-based attempt counter; `fuel = maxRetries + 1 − attempt` counts the retries
still allowed (the Go guard `attempt > MaxRetries` is `fuel = 0`).  `res`
gives each attempt's inner result and duration, `u` the jitter draws, `now`
the current monotonic time in nanoseconds.  The loop never consults the
caller's context: Go's `time.Sleep` is uninterruptible and no `ctx.Done()`
check exists between attempts. -/
def completeLoop (opts : ResilienceOptions) (res : Nat → AttemptResult) (u : Nat → ℚ)
    (startNs : Nat) :
    Nat → Nat → Nat → Stats → CircuitBreaker → List Nat → RunResult
  | attempt, fuel, now, st, cb, sleepAcc =>
    let r := res attempt
    let nowEnd := now + r.durNs
    let lat := r.durNs / 1000000
    if r.err = false then
      { ok := true, text := r.text, costUSD := r.costUSD, latencyMs := lat, errMsg := none,
        stats := st.record lat false, cb := cb.onResult false nowEnd,
        attempts := attempt, sleepsNs := sleepAcc.reverse, endNs := nowEnd }
    else
      let st2 := st.record lat true
      let cb2 := cb.onResult true nowEnd
      match fuel with
      | 0 =>
        { ok := false, text := "", costUSD := 0, latencyMs := (nowEnd - startNs) / 1000000,
          errMsg := some r.errMsg, stats := st2, cb := cb2, attempts := attempt,
          sleepsNs := sleepAcc.reverse, endNs := nowEnd }
      | fuel' + 1 =>
        let sl := sleepNs opts attempt (u attempt)
        completeLoop opts res u startNs (attempt + 1) fuel' (nowEnd + sl) st2 cb2 (sl :: sleepAcc)

/-- Go `ResilientProvider.Complete`: gate on the breaker (recording nothing on
rejection), then run the retry loop starting at attempt 1. -/
def complete (opts : ResilienceOptions) (res : Nat → AttemptResult) (u : Nat → ℚ)
    (startNs : Nat) (st : Stats) (cb : CircuitBreaker) : RunResult :=
  let gate := cb.allow startNs
  if gate.1 = false then
    { ok := false, text := "", costUSD := 0, latencyMs := 0, errMsg := some "circuit open",
      stats := st, cb := cb, attempts := 0, sleepsNs := [], endNs := startNs }
  else
    completeLoop opts res u startNs 1 opts.maxRetries startNs st gate.2 []

/-- End times of the attempts `attempt, attempt+1, …` of an all-failing run:
each attempt takes its duration, and a backoff sleep separates consecutive
attempts. -/
def failTimes (opts : ResilienceOptions) (res : Nat → AttemptResult) (u : Nat → ℚ) :
    Nat → Nat → Nat → List Nat
  | attempt, 0, now => [now + (res attempt).durNs]
  | attempt, fuel + 1, now =>
    (now + (res attempt).durNs) ::
      failTimes opts res u (attempt + 1) fuel
        (now + (res attempt).durNs + sleepNs opts attempt (u attempt))

/-- Finish time of an all-failing run (the last entry of `failTimes`). -/
def failEnd (opts : ResilienceOptions) (res : Nat → AttemptResult) (u : Nat → ℚ) :
    Nat → Nat → Nat → Nat
  | attempt, 0, now => now + (res attempt).durNs
  | attempt, fuel + 1, now =>
    failEnd opts res u (attempt + 1) fuel
      (now + (res attempt).durNs + sleepNs opts attempt (u attempt))

/-- Claim C2: when the breaker denies admission, `Complete` returns a
"circuit open" failure immediately: no inner attempt is issued and neither the
`Stats` window nor the breaker state is touched, so no outcome is recorded. -/
theorem complete_circuitOpen_no_record (opts : ResilienceOptions)
    (res : Nat → AttemptResult) (u : Nat → ℚ) (startNs : Nat)
    (st : Stats) (cb : CircuitBreaker)
    (hgate : (cb.allow startNs).1 = false) :
    complete opts res u startNs st cb =
      { ok := false, text := "", costUSD := 0, latencyMs := 0,
        errMsg := some "circuit open", stats := st, cb := cb, attempts := 0,
        sleepsNs := [], endNs := startNs } := by
  unfold complete
  simp [hgate]

/-- Witness for C2: a breaker that opened at time 0 with cooldown 100 denies a
call at time 5 and the call leaves stats and breaker untouched. -/
theorem complete_circuitOpen_no_record_witness :
    (({ window := [true], windowSize := 1, isOpen := true, openedAt := 0,
        cooldown := 100, halfOpenProbe := false : CircuitBreaker }).allow 5).1 = false ∧
    complete { maxRetries := 3 } (fun _ => ⟨"", 0, true, "boom", 0⟩) (fun _ => 0) 5
        (NewStats 100)
        { window := [true], windowSize := 1, isOpen := true, openedAt := 0,
          cooldown := 100, halfOpenProbe := false } =
      { ok := false, text := "", costUSD := 0, latencyMs := 0,
        errMsg := some "circuit open", stats := NewStats 100,
        cb := { window := [true], windowSize := 1, isOpen := true, openedAt := 0,
                cooldown := 100, halfOpenProbe := false },
        attempts := 0, sleepsNs := [], endNs := 5 } := by
  refine ⟨by decide, ?_⟩
  exact complete_circuitOpen_no_record _ _ _ _ _ _ (by decide)

/-- Full characterization of the retry loop for an inner provider that fails
on every attempt: one recorded outcome per attempt in both the stats window
and the breaker, one backoff sleep between consecutive attempts, the last
attempt's error returned, and the elapsed wall time reported as latency. -/
theorem completeLoop_allFail (opts : ResilienceOptions) (res : Nat → AttemptResult)
    (u : Nat → ℚ) (startNs : Nat) (hfail : ∀ a, (res a).err = true) :
    ∀ (fuel attempt now : Nat) (st : Stats) (cb : CircuitBreaker) (acc : List Nat),
      completeLoop opts res u startNs attempt fuel now st cb acc =
        { ok := false, text := "", costUSD := 0,
          latencyMs := (failEnd opts res u attempt fuel now - startNs) / 1000000,
          errMsg := some (res (attempt + fuel)).errMsg,
          stats := ((List.range (fuel + 1)).map
              (fun k => (res (attempt + k)).durNs / 1000000)).foldl
              (fun s l => s.record l true) st,
          cb := (failTimes opts res u attempt fuel now).foldl
              (fun c t => c.onResult true t) cb,
          attempts := attempt + fuel,
          sleepsNs := acc.reverse ++ (List.range fuel).map
              (fun k => sleepNs opts (attempt + k) (u (attempt + k))),
          endNs := failEnd opts res u attempt fuel now } := by
  intro fuel
  induction fuel with
  | zero =>
    intro attempt now st cb acc
    rw [completeLoop]
    simp [hfail attempt, failEnd, failTimes, List.range_succ]
  | succ fuel ih =>
    intro attempt now st cb acc
    rw [completeLoop]
    simp only [hfail attempt, Bool.true_eq_false, if_false]
    rw [ih]
    have hstats :
        ((List.range (fuel + 1)).map
            (fun k => (res (attempt + 1 + k)).durNs / 1000000)).foldl
            (fun s l => s.record l true)
            (st.record ((res attempt).durNs / 1000000) true) =
        ((List.range (fuel + 1 + 1)).map
            (fun k => (res (attempt + k)).durNs / 1000000)).foldl
            (fun s l => s.record l true) st := by
      conv_rhs => rw [List.range_succ_eq_map]
      simp only [List.map_cons, List.map_map, List.foldl_cons, Nat.add_zero]
      congr 1
      apply List.map_congr_left
      intro k _
      have h1 : attempt + 1 + k = attempt + Nat.succ k := by omega
      simp [Function.comp, h1]
    have hsleeps :
        (sleepNs opts attempt (u attempt) :: acc).reverse ++
          (List.range fuel).map
            (fun k => sleepNs opts (attempt + 1 + k) (u (attempt + 1 + k))) =
        acc.reverse ++ (List.range (fuel + 1)).map
            (fun k => sleepNs opts (attempt + k) (u (attempt + k))) := by
      conv_rhs => rw [List.range_succ_eq_map]
      simp only [List.reverse_cons, List.map_cons, List.map_map, Nat.add_zero,
        List.append_assoc, List.singleton_append]
      congr 2
      apply List.map_congr_left
      intro k _
      have h1 : attempt + 1 + k = attempt + Nat.succ k := by omega
      simp [Function.comp, h1]
    have htimes :
        (failTimes opts res u (attempt + 1) fuel
            (now + (res attempt).durNs + sleepNs opts attempt (u attempt))).foldl
            (fun c t => c.onResult true t)
            (cb.onResult true (now + (res attempt).durNs)) =
        (failTimes opts res u attempt (fuel + 1) now).foldl
            (fun c t => c.onResult true t) cb := by
      rw [failTimes]
      simp [List.foldl_cons]
    have hend :
        failEnd opts res u (attempt + 1) fuel
            (now + (res attempt).durNs + sleepNs opts attempt (u attempt)) =
        failEnd opts res u attempt (fuel + 1) now := by
      rw [failEnd]
    have herr : attempt + 1 + fuel = attempt + (fuel + 1) := by omega
    rw [hstats, hsleeps, htimes, hend, herr]

/-- `wrap64` is the identity on the `int64` range. -/
theorem wrap64_eq_self {n : Int} (hl : -(2 ^ 63) ≤ n) (hu : n < 2 ^ 63) : wrap64 n = n := by
  unfold wrap64
  have h : (n + 2 ^ 63) % 2 ^ 64 = n + 2 ^ 63 :=
    Int.emod_eq_of_lt (by omega) (by omega)
  omega

/-- A sum of the time of `fuel + 1` attempts and `fuel` sleeps: closed form of
`failEnd`. -/
theorem failEnd_eq (opts : ResilienceOptions) (res : Nat → AttemptResult) (u : Nat → ℚ) :
    ∀ (fuel attempt now : Nat),
      failEnd opts res u attempt fuel now =
        now + ((List.range (fuel + 1)).map (fun k => (res (attempt + k)).durNs)).sum +
          ((List.range fuel).map (fun k => sleepNs opts (attempt + k) (u (attempt + k)))).sum := by
  intro fuel
  induction fuel with
  | zero =>
    intro attempt now
    simp [failEnd, List.range_succ]
  | succ fuel ih =>
    intro attempt now
    rw [failEnd, ih]
    have hdur :
        ((List.range (fuel + 1)).map (fun k => (res (attempt + 1 + k)).durNs)).sum +
          (res attempt).durNs =
        ((List.range (fuel + 1 + 1)).map (fun k => (res (attempt + k)).durNs)).sum := by
      conv_rhs => rw [List.range_succ_eq_map]
      simp only [List.map_cons, List.map_map, List.sum_cons, Nat.add_zero]
      have : (List.range (fuel + 1)).map ((fun k => (res (attempt + k)).durNs) ∘ Nat.succ) =
          (List.range (fuel + 1)).map (fun k => (res (attempt + 1 + k)).durNs) := by
        apply List.map_congr_left
        intro k _
        have h1 : attempt + Nat.succ k = attempt + 1 + k := by omega
        simp [Function.comp, h1]
      rw [this]
      omega
    have hsl :
        ((List.range fuel).map
            (fun k => sleepNs opts (attempt + 1 + k) (u (attempt + 1 + k)))).sum +
          sleepNs opts attempt (u attempt) =
        ((List.range (fuel + 1)).map
            (fun k => sleepNs opts (attempt + k) (u (attempt + k)))).sum := by
      conv_rhs => rw [List.range_succ_eq_map]
      simp only [List.map_cons, List.map_map, List.sum_cons, Nat.add_zero]
      have : (List.range fuel).map
            ((fun k => sleepNs opts (attempt + k) (u (attempt + k))) ∘ Nat.succ) =
          (List.range fuel).map
            (fun k => sleepNs opts (attempt + 1 + k) (u (attempt + 1 + k))) := by
        apply List.map_congr_left
        intro k _
        have h1 : attempt + Nat.succ k = attempt + 1 + k := by omega
        simp [Function.comp, h1]
      rw [this]
      omega
    omega

/-- When the backoff arithmetic stays inside `int64` (no shift or
multiplication overflow), the Go computation is the mathematical
`BaseBackoff · 2^(attempt−1)`, capped at `MaxBackoff` only when
`MaxBackoff > 0`. -/
theorem backoffNs_no_overflow (opts : ResilienceOptions) (a : Nat)
    (hbase : 0 ≤ opts.baseBackoff)
    (hov : opts.baseBackoff * 2 ^ opts.maxRetries < 2 ^ 63)
    (ha : a ≤ opts.maxRetries) :
    backoffNs opts a =
      if 0 < opts.maxBackoff ∧ opts.maxBackoff < opts.baseBackoff * 2 ^ (a - 1)
      then opts.maxBackoff else opts.baseBackoff * 2 ^ (a - 1) := by
  unfold backoffNs
  rcases eq_or_lt_of_le hbase with h0 | h0
  · have hb : opts.baseBackoff = 0 := h0.symm
    have hw0 : wrap64 0 = 0 := wrap64_eq_self (by norm_num) (by norm_num)
    rw [hb]
    simp [hw0]
  · have hpow_le : (2 : Int) ^ (a - 1) ≤ 2 ^ opts.maxRetries :=
      pow_le_pow_right₀ (by norm_num) (by omega)
    have hpow_pos : (0 : Int) < 2 ^ (a - 1) := pow_pos (by norm_num) _
    have hb1 : (1 : Int) ≤ opts.baseBackoff := h0
    have hbig : (2 : Int) ^ opts.maxRetries ≤ opts.baseBackoff * 2 ^ opts.maxRetries := by
      nlinarith [pow_pos (show (0 : Int) < 2 by norm_num) opts.maxRetries]
    have hw1 : wrap64 ((2 : Int) ^ (a - 1)) = 2 ^ (a - 1) :=
      wrap64_eq_self (by omega) (by omega)
    have hmn : (0 : Int) ≤ opts.baseBackoff * 2 ^ (a - 1) :=
      mul_nonneg hbase hpow_pos.le
    have hprod : opts.baseBackoff * 2 ^ (a - 1) < 2 ^ 63 := by
      have : opts.baseBackoff * 2 ^ (a - 1) ≤ opts.baseBackoff * 2 ^ opts.maxRetries :=
        mul_le_mul_of_nonneg_left hpow_le hbase
      omega
    have hw2 : wrap64 (opts.baseBackoff * 2 ^ (a - 1)) = opts.baseBackoff * 2 ^ (a - 1) :=
      wrap64_eq_self (by omega) hprod
    rw [hw1, hw2]

/-- Claim C3 (amended): for an always-failing inner provider, `Complete`
issues exactly `max_retries + 1` attempts, records each attempt's outcome into
`Stats` and the breaker, sleeps between consecutive attempts for
`base_backoff · 2^(attempt−1)` — capped at `max_backoff` only when
`max_backoff > 0` — scaled by `(1 + U(−jitter_frac, +jitter_frac))`, and
returns the last failure with the total elapsed wall time as the reported
latency.  The overflow side conditions keep the modelled backoff arithmetic
inside `int64`. -/
theorem complete_retry_exhaustion_spec (opts : ResilienceOptions)
    (res : Nat → AttemptResult) (u : Nat → ℚ) (startNs : Nat)
    (st : Stats) (cb : CircuitBreaker)
    (hfail : ∀ a, (res a).err = true)
    (hallow : (cb.allow startNs).1 = true)
    (hbase : 0 ≤ opts.baseBackoff)
    (hov : opts.baseBackoff * 2 ^ opts.maxRetries < 2 ^ 63) :
    (complete opts res u startNs st cb).ok = false ∧
    (complete opts res u startNs st cb).attempts = opts.maxRetries + 1 ∧
    (complete opts res u startNs st cb).errMsg =
      some (res (opts.maxRetries + 1)).errMsg ∧
    (complete opts res u startNs st cb).stats =
      ((List.range (opts.maxRetries + 1)).map
        (fun k => (res (k + 1)).durNs / 1000000)).foldl (fun s l => s.record l true) st ∧
    (complete opts res u startNs st cb).cb =
      (failTimes opts res u 1 opts.maxRetries startNs).foldl
        (fun c t => c.onResult true t) (cb.allow startNs).2 ∧
    (complete opts res u startNs st cb).sleepsNs =
      (List.range opts.maxRetries).map (fun k =>
        (randomJitter
          (if 0 < opts.maxBackoff ∧ opts.maxBackoff < opts.baseBackoff * 2 ^ k
           then opts.maxBackoff else opts.baseBackoff * 2 ^ k)
          opts.jitterFrac (u (k + 1))).toNat) ∧
    (complete opts res u startNs st cb).endNs =
      startNs + ((List.range (opts.maxRetries + 1)).map (fun k => (res (k + 1)).durNs)).sum +
        (complete opts res u startNs st cb).sleepsNs.sum ∧
    (complete opts res u startNs st cb).latencyMs =
      ((complete opts res u startNs st cb).endNs - startNs) / 1000000 := by
  have hnotfalse : ¬ ((cb.allow startNs).1 = false) := by simp [hallow]
  have hrun : complete opts res u startNs st cb =
      completeLoop opts res u startNs 1 opts.maxRetries startNs st (cb.allow startNs).2 [] := by
    unfold complete
    simp [hnotfalse]
  rw [hrun, completeLoop_allFail opts res u startNs hfail]
  simp only [List.reverse_nil, List.nil_append]
  have hshiftD : (List.range (opts.maxRetries + 1)).map (fun k => (res (1 + k)).durNs) =
      (List.range (opts.maxRetries + 1)).map (fun k => (res (k + 1)).durNs) := by
    apply List.map_congr_left
    intro k _
    have h1 : 1 + k = k + 1 := by omega
    rw [h1]
  have hshiftL : (List.range (opts.maxRetries + 1)).map
        (fun k => (res (1 + k)).durNs / 1000000) =
      (List.range (opts.maxRetries + 1)).map (fun k => (res (k + 1)).durNs / 1000000) := by
    apply List.map_congr_left
    intro k _
    have h1 : 1 + k = k + 1 := by omega
    rw [h1]
  have hsleep : (List.range opts.maxRetries).map
        (fun k => sleepNs opts (1 + k) (u (1 + k))) =
      (List.range opts.maxRetries).map (fun k =>
        (randomJitter
          (if 0 < opts.maxBackoff ∧ opts.maxBackoff < opts.baseBackoff * 2 ^ k
           then opts.maxBackoff else opts.baseBackoff * 2 ^ k)
          opts.jitterFrac (u (k + 1))).toNat) := by
    apply List.map_congr_left
    intro k hk
    have hk' : k < opts.maxRetries := List.mem_range.mp hk
    have h1k : 1 + k = k + 1 := by omega
    rw [h1k]
    unfold sleepNs
    rw [backoffNs_no_overflow opts (k + 1) hbase hov (by omega)]
    have h2 : k + 1 - 1 = k := by omega
    rw [h2]
  refine ⟨trivial, by omega, by rw [Nat.add_comm], ?_, trivial, hsleep, ?_, trivial⟩
  · rw [hshiftL]
  · rw [failEnd_eq, hshiftD]

/-- Witness for C3 (amended) at a concrete always-failing provider with two
retries, a 10 ms base backoff capped at 15 ms, and jitter 1/5 with draw 3/4. -/
theorem complete_retry_exhaustion_spec_witness :
    (complete
        { maxRetries := 2, baseBackoff := 10000000, maxBackoff := 15000000, jitterFrac := 1/5 }
        (fun _ => ⟨"", 0, true, "fail", 2000000⟩) (fun _ => 3/4) 0
        (NewStats 100) (NewCircuitBreaker 20 1000)).attempts = 2 + 1 := by
  have h := complete_retry_exhaustion_spec
    { maxRetries := 2, baseBackoff := 10000000, maxBackoff := 15000000, jitterFrac := 1/5 }
    (fun _ => ⟨"", 0, true, "fail", 2000000⟩) (fun _ => 3/4) 0
    (NewStats 100) (NewCircuitBreaker 20 1000)
    (fun _ => rfl) (by decide) (by norm_num) (by norm_num)
  exact h.2.1

/-- Counterexample to C3 as stated: with `max_backoff = 0` the claim's
`min(max_backoff, base_backoff · 2^(attempt−1))` formula predicts a zero
sleep, but the code only applies the cap when `MaxBackoff > 0` and sleeps the
full 10 ms base backoff. -/
theorem complete_sleep_cap_counterexample :
    (complete { maxRetries := 1, baseBackoff := 10000000, maxBackoff := 0, jitterFrac := 0 }
        (fun _ => ⟨"", 0, true, "fail", 0⟩) (fun _ => 1/2) 0 (NewStats 100)
        (NewCircuitBreaker 20 1000)).sleepsNs = [10000000] ∧
    (randomJitter (min (0 : Int) (10000000 * 2 ^ (1 - 1))) 0 (1/2)).toNat = 0 := by
  constructor
  · rfl
  · rfl

/-- Claim C4 failing input: the caller's context is cancelled during the
single 10 ms backoff sleep (which spans the interval 5 ms–15 ms of this run),
yet the loop still sleeps the full backoff and issues a second inner attempt:
the Go loop contains no `ctx.Done()` check and `time.Sleep` is
uninterruptible, so the model of the loop takes no cancellation input at
all — the attempt count is 2 regardless of when cancellation happens. -/
theorem complete_ignores_cancellation_during_backoff :
    (complete { maxRetries := 1, baseBackoff := 10000000, maxBackoff := 0, jitterFrac := 0 }
        (fun _ => ⟨"", 0, true, "context canceled", 5000000⟩) (fun _ => 1/2) 0 (NewStats 100)
        (NewCircuitBreaker 20 1000)).attempts = 2 ∧
    (complete { maxRetries := 1, baseBackoff := 10000000, maxBackoff := 0, jitterFrac := 0 }
        (fun _ => ⟨"", 0, true, "context canceled", 5000000⟩) (fun _ => 1/2) 0 (NewStats 100)
        (NewCircuitBreaker 20 1000)).sleepsNs = [10000000] := by
  constructor
  · rfl
  · rfl

/-! ### Claim C8: percentile monotonicity -/

/-- `latsOf` distributes over append. -/
theorem latsOf_append (l₁ l₂ : List Outcome) :
    latsOf (l₁ ++ l₂) = latsOf l₁ ++ latsOf l₂ := by
  simp [latsOf, List.filter_append]

/-- Dropping the oldest outcome removes at most one successful latency. -/
theorem latsOf_length_drop_one (l : List Outcome) :
    (latsOf l).length ≤ (latsOf (l.drop 1)).length + 1 := by
  cases l with
  | nil => simp [latsOf]
  | cons o t =>
    by_cases he : o.err <;> simp [latsOf, List.filter_cons, he]

/-- With no successful outcome the p95 is 0. -/
theorem p95_eq_zero (s : Stats) (h : latsOf s.outcomes = []) : s.p95LatencyMs = 0 := by
  unfold Stats.p95LatencyMs
  by_cases hout : s.outcomes = [] <;> simp [hout, h]

/-- The ring invariant `outcomes.length ≤ windowSize` holds for a fresh
`Stats`. -/
theorem newStats_ring (window : Nat) :
    (NewStats window).outcomes.length ≤ (NewStats window).windowSize := by
  simp [NewStats]

/-- The ring invariant `outcomes.length ≤ windowSize` is preserved by
`Record`, so it holds in every reachable `Stats` state. -/
theorem record_preserves_ring (s : Stats) (lat : Nat) (err : Bool) :
    (s.record lat err).outcomes.length ≤ (s.record lat err).windowSize := by
  unfold Stats.record
  dsimp only
  split <;> rename_i hfull <;>
    simp only [List.length_drop, List.length_append, List.length_cons,
      List.length_nil] at hfull ⊢ <;> omega

/-- Claim C8: recording a successful outcome whose latency is at least the
current `p95_latency_ms()` never decreases `p95_latency_ms()`, including on a
full ring where recording evicts the oldest outcome.  The hypothesis
`outcomes.length ≤ windowSize` is the ring invariant, established by
`NewStats` and preserved by every `Record`. -/
theorem p95_monotone_record (s : Stats) (v : Nat)
    (hring : s.outcomes.length ≤ s.windowSize)
    (hv : s.p95LatencyMs ≤ v) :
    s.p95LatencyMs ≤ (s.record v false).p95LatencyMs := by
  by_cases hvals : latsOf s.outcomes = []
  · rw [p95_eq_zero s hvals]
    exact Nat.zero_le _
  have houtne : s.outcomes ≠ [] := by
    intro h
    exact hvals (by simp [latsOf, h])
  have houtpos : 0 < s.outcomes.length := List.length_pos.mpr houtne
  have hNpos : 0 < (latsOf s.outcomes).length := List.length_pos.mpr hvals
  obtain ⟨tl, hsub, hlendrop, hnew⟩ : ∃ tl : List Outcome, tl.Sublist s.outcomes ∧
      (latsOf s.outcomes).length ≤ (latsOf tl).length + 1 ∧
      (s.record v false).outcomes = tl ++ [{ latencyMs := v, err := false }] := by
    by_cases hfull : s.windowSize < (s.outcomes ++ [{ latencyMs := v, err := false : Outcome }]).length
    · refine ⟨s.outcomes.drop 1, List.drop_sublist 1 _, latsOf_length_drop_one _, ?_⟩
      unfold Stats.record
      simp only [hfull, if_true]
      have h1 : (s.outcomes ++ [{ latencyMs := v, err := false : Outcome }]).length -
          s.windowSize = 1 := by
        simp only [List.length_append, List.length_cons, List.length_nil] at hfull ⊢
        omega
      rw [h1]
      exact List.drop_append_of_le_length (by omega)
    · refine ⟨s.outcomes, List.Sublist.refl _, by omega, ?_⟩
      unfold Stats.record
      have hfull' : ¬ s.windowSize < s.outcomes.length + 1 := by
        simpa using hfull
      simp [hfull']
  have hSlen : ((latsOf s.outcomes).insertionSort (· ≤ ·)).length =
      (latsOf s.outcomes).length :=
    (List.perm_insertionSort _ _).length_eq
  have hiA : p95Index (latsOf s.outcomes).length < (latsOf s.outcomes).length :=
    p95Index_lt hNpos
  have hiS : p95Index (latsOf s.outcomes).length <
      ((latsOf s.outcomes).insertionSort (· ≤ ·)).length := by omega
  have hxeq : s.p95LatencyMs =
      ((latsOf s.outcomes).insertionSort (· ≤ ·)).get
        ⟨p95Index (latsOf s.outcomes).length, hiS⟩ := by
    rw [p95_eq_getD s hvals, List.getD_eq_getElem _ _ hiS, List.get_eq_getElem]
  have hcountA : (latsOf s.outcomes).countP (fun a => decide (a < s.p95LatencyMs)) ≤
      p95Index (latsOf s.outcomes).length := by
    rw [← (List.perm_insertionSort (· ≤ ·) (latsOf s.outcomes)).countP_eq]
    rw [hxeq]
    exact countP_lt_self_le_of_sorted _ (List.sorted_insertionSort _ _) _ hiS
  have hnewvals : latsOf (s.record v false).outcomes = latsOf tl ++ [v] := by
    rw [hnew, latsOf_append]
    simp [latsOf]
  have hCne : latsOf (s.record v false).outcomes ≠ [] := by
    rw [hnewvals]
    simp
  have hcountB : (latsOf tl).countP (fun a => decide (a < s.p95LatencyMs)) ≤
      (latsOf s.outcomes).countP (fun a => decide (a < s.p95LatencyMs)) :=
    countP_le_of_sublist _ ((hsub.filter _).map _)
  have hcountC : (latsOf tl ++ [v]).countP (fun a => decide (a < s.p95LatencyMs)) ≤
      p95Index (latsOf s.outcomes).length := by
    rw [List.countP_append]
    have hvx : List.countP (fun a => decide (a < s.p95LatencyMs)) [v] = 0 := by
      simp [Nat.not_lt.mpr hv]
    omega
  have hidx : p95Index (latsOf s.outcomes).length ≤ p95Index ((latsOf tl).length + 1) :=
    p95Index_mono (by omega)
  have hi'C : p95Index ((latsOf tl).length + 1) < (latsOf tl).length + 1 :=
    p95Index_lt (by omega)
  rw [p95_eq_getD _ hCne, hnewvals]
  have hsortlen : ((latsOf tl ++ [v]).insertionSort (· ≤ ·)).length =
      (latsOf tl).length + 1 := by
    rw [(List.perm_insertionSort _ _).length_eq]
    simp
  have hClen2 : (latsOf tl ++ [v]).length = (latsOf tl).length + 1 := by simp
  rw [hClen2]
  have hi'S : p95Index ((latsOf tl).length + 1) <
      ((latsOf tl ++ [v]).insertionSort (· ≤ ·)).length := by omega
  rw [List.getD_eq_getElem _ _ hi'S]
  have hfin := le_get_of_countP_lt_le ((latsOf tl ++ [v]).insertionSort (· ≤ ·))
    (List.sorted_insertionSort _ _) s.p95LatencyMs
    (p95Index ((latsOf tl).length + 1)) hi'S
    (by
      rw [(List.perm_insertionSort (· ≤ ·) (latsOf tl ++ [v])).countP_eq]
      exact le_trans hcountC hidx)
  simpa [List.get_eq_getElem] using hfin

/-- Witness for C8: a full two-slot ring holding successes 5 and 3 (p95 = 5)
receives a success with latency 10; recording evicts the oldest outcome and
the p95 rises to 10. -/
theorem p95_monotone_record_witness :
    ({ outcomes := [⟨5, false⟩, ⟨3, false⟩], windowSize := 2 } : Stats).outcomes.length ≤
      ({ outcomes := [⟨5, false⟩, ⟨3, false⟩], windowSize := 2 } : Stats).windowSize ∧
    ({ outcomes := [⟨5, false⟩, ⟨3, false⟩], windowSize := 2 } : Stats).p95LatencyMs ≤
      (({ outcomes := [⟨5, false⟩, ⟨3, false⟩], windowSize := 2 } : Stats).record
        10 false).p95LatencyMs :=
  ⟨by decide, p95_monotone_record _ 10 (by decide) (by decide)⟩

/-! ### Policy engine (`router.Engine`) -/

/-- A `*providers.ResilientProvider` as the engine sees it: a stable name, the
per-model list-price hint, and the stats window.  (The breaker is not
consulted by any policy.) -/
@[ext]
structure RProv where
  name : String
  cost : String → ℚ
  stats : Stats

/-- The `canary` sub-struct of Go `router.Engine`. -/
structure CanaryState where
  candidate : String
  stages : List ℚ
  stageIdx : Nat
  calls : Nat

/-- Go `router.Engine`.  The `rand.Rand` seeded with the constant 42 is
modelled by an index `rngIdx` into an ambient stream of `Float64` draws: two
engines share one stream because they are seeded with the same constant. -/
structure Engine where
  provs : List RProv
  sloTarget : ℚ
  rngIdx : Nat
  canary : CanaryState

/-- The in-place `sort.Slice` by cost used by Go `Engine.cheapestPair`.
Go's sort is unstable but deterministic; ties are ordered by the model's
(equally deterministic) insertion sort. -/
def sortByCost (model : String) (ps : List RProv) : List RProv :=
  ps.insertionSort (fun p q => p.cost model ≤ q.cost model)

/-- Go `Engine.cheapest`: first provider of minimal cost, scanning in list
order (registration order breaks ties). -/
def Engine.cheapest (e : Engine) (model : String) : Option RProv :=
  match e.provs with
  | [] => none
  | p :: ps =>
    some (ps.foldl (fun best q => if q.cost model < best.cost model then q else best) p)

/-- Go `Engine.cheapestPair`: with fewer than two providers return
`(nil, nil)`; otherwise `sort.Slice` the registry slice **in place** by cost
(the returned engine carries the re-ordered list, as the Go slice aliasing
does) and return its first two entries. -/
def Engine.cheapestPair (e : Engine) (model : String) :
    Option RProv × Option RProv × Engine :=
  if e.provs.length < 2 then (none, none, e)
  else
    let sorted := sortByCost model e.provs
    (sorted[0]?, sorted[1]?, { e with provs := sorted })

/-- Go `Engine.fastestP95`: smallest strictly positive p95; with no p95 data
anywhere, fall back to `cheapest("")`. -/
def Engine.fastestP95 (e : Engine) : Option RProv :=
  match e.provs with
  | [] => none
  | p :: ps =>
    let best := ps.foldl (fun b q =>
      let v := q.stats.p95LatencyMs
      if 0 < v ∧ (b.2 = 0 ∨ v < b.2) then (q, v) else b) (p, p.stats.p95LatencyMs)
    if best.2 = 0 then e.cheapest "" else some best.1

/-- Go `Engine.healthyAlternative`: lowest error rate, ties broken by lower
cost. -/
def Engine.healthyAlternative (e : Engine) (model : String) : Option RProv :=
  match e.provs with
  | [] => none
  | p :: ps =>
    some ((ps.foldl (fun b q =>
      let er := q.stats.errorRate
      if er < b.2 ∨ (er = b.2 ∧ q.cost model < b.1.cost model) then (q, er) else b)
      (p, p.stats.errorRate)).1)

/-- Go `Engine.Choose`, with the `rand.Float64` stream passed explicitly.
Returns the selected provider and the post-state of the engine (the canary
branch consumes one draw and, through `cheapestPair`, re-orders the provider
slice). -/
def Engine.choose (e : Engine) (policy : String) (model : String)
    (stream : Nat → ℚ) : Option RProv × Engine :=
  if policy = "cheapest" then (e.cheapest model, e)
  else if policy = "fastest_p95" then (e.fastestP95, e)
  else if policy = "slo_burn_aware" then
    match e.cheapest model with
    | none => (e.healthyAlternative model, e)
    | some ch =>
      if 1 < ch.stats.errorRate / e.sloTarget then (e.healthyAlternative model, e)
      else (some ch, e)
  else if policy = "canary" then
    match e.cheapestPair model with
    | (primary, candidate, e2) =>
      match primary, candidate with
      | some pr, some ca =>
        let p := e2.canary.stages.getD e2.canary.stageIdx 0
        let u := stream e2.rngIdx
        (if u < p then some ca else some pr, { e2 with rngIdx := e2.rngIdx + 1 })
      | _, _ => (primary, e2)
  else (e.cheapest model, e)

/-- Go `Engine.RecordResult`: the canary bookkeeping hook.  The `failed`
argument is accepted and ignored, exactly as in the source. -/
def Engine.recordResult (e : Engine) (providerName : String) (failed : Bool) : Engine :=
  if providerName = e.canary.candidate then
    let calls := e.canary.calls + 1
    let e1 : Engine := { e with canary := { e.canary with calls := calls } }
    if calls % 200 = 0 then
      match e1.provs.find? (fun p => p.name = providerName) with
      | some cand =>
        if 2 < cand.stats.errorRate / e1.sloTarget then
          { e1 with canary := { e1.canary with stageIdx := 0 } }
        else if e1.canary.stageIdx + 1 < e1.canary.stages.length then
          { e1 with canary := { e1.canary with stageIdx := e1.canary.stageIdx + 1 } }
        else e1
      | none =>
        if e1.canary.stageIdx + 1 < e1.canary.stages.length then
          { e1 with canary := { e1.canary with stageIdx := e1.canary.stageIdx + 1 } }
        else e1
    else e1
  else e

/-- Go `router.NewEngine`: SLO target 0.01, stages 1%/5%/25%, RNG seeded with
the constant 42 (stream position 0), and, when more than one provider is
registered, candidate = second cheapest by `cost("")` — which, through
`cheapestPair`, also re-orders the provider slice. -/
def NewEngine (providersList : List RProv) : Engine :=
  let e : Engine :=
    { provs := providersList, sloTarget := 1 / 100, rngIdx := 0,
      canary := { candidate := "", stages := [1/100, 5/100, 25/100],
                  stageIdx := 0, calls := 0 } }
  if 1 < providersList.length then
    match e.cheapestPair "" with
    | (_, some cand, e2) => { e2 with canary := { e2.canary with candidate := cand.name } }
    | (_, none, e2) => e2
  else e

/-- One call of a driving sequence against an engine. -/
inductive Call where
  | choose (policy model : String)
  | record (name : String) (failed : Bool)

/-- Run a sequence of `Choose` / `RecordResult` calls, collecting the name of
each `Choose` selection. -/
def Engine.runCalls (stream : Nat → ℚ) : Engine → List Call → List (Option String)
  | _, [] => []
  | e, Call.choose pol m :: rest =>
    let r := e.choose pol m stream
    (r.1.map RProv.name) :: r.2.runCalls stream rest
  | e, Call.record n f :: rest => (e.recordResult n f).runCalls stream rest

/-- Claim C5: `RecordResult(name, failed)` changes the canary state only when
`name` equals the candidate name, in which case the candidate call counter is
incremented; exactly at a positive multiple of the 200-call window the stage
index is reset to 0 when the candidate's `error_rate()/slo_target` exceeds
2.0 and otherwise incremented when `stage_idx + 1 < len(stages)`; at every
other call the stage index is unchanged.  `c` is the candidate's registry
entry (the loop in the source scans `e.provs` for it). -/
theorem recordResult_spec (e : Engine) (providerName : String) (failed : Bool)
    (c : RProv)
    (hfind : e.provs.find? (fun p => p.name = e.canary.candidate) = some c) :
    (providerName ≠ e.canary.candidate → e.recordResult providerName failed = e) ∧
    (providerName = e.canary.candidate →
      (e.recordResult providerName failed).canary.calls = e.canary.calls + 1 ∧
      (e.recordResult providerName failed).provs = e.provs ∧
      (e.recordResult providerName failed).sloTarget = e.sloTarget ∧
      (e.recordResult providerName failed).rngIdx = e.rngIdx ∧
      (e.recordResult providerName failed).canary.candidate = e.canary.candidate ∧
      (e.recordResult providerName failed).canary.stages = e.canary.stages ∧
      (¬ (e.canary.calls + 1) % 200 = 0 →
        (e.recordResult providerName failed).canary.stageIdx = e.canary.stageIdx) ∧
      ((e.canary.calls + 1) % 200 = 0 →
        (e.recordResult providerName failed).canary.stageIdx =
          if 2 < c.stats.errorRate / e.sloTarget then 0
          else if e.canary.stageIdx + 1 < e.canary.stages.length then e.canary.stageIdx + 1
          else e.canary.stageIdx)) := by
  constructor
  · intro hne
    unfold Engine.recordResult
    simp [hne]
  · intro heq
    subst heq
    unfold Engine.recordResult
    simp only [if_pos rfl]
    by_cases hmod : (e.canary.calls + 1) % 200 = 0
    · by_cases hburn : 2 < c.stats.errorRate / e.sloTarget
      · simp [hmod, hfind, hburn]
      · by_cases hstage : e.canary.stageIdx + 1 < e.canary.stages.length
        · simp [hmod, hfind, hburn, hstage]
        · simp [hmod, hfind, hburn, hstage]
    · simp [hmod]

/-- Witness for C5: a two-provider engine whose candidate "cand" is at call
199; the 200th recorded candidate call advances the stage from 0 to 1
(error rate 0, burn 0 ≤ 2), and a call recorded for another name leaves the
engine unchanged. -/
theorem recordResult_spec_witness :
    ({ provs := [{ name := "a", cost := fun _ => 1, stats := NewStats 100 },
                 { name := "cand", cost := fun _ => 2, stats := NewStats 100 }],
       sloTarget := 1/100, rngIdx := 0,
       canary := { candidate := "cand", stages := [1/100, 5/100, 25/100],
                   stageIdx := 0, calls := 199 } : Engine}.recordResult "other" false =
      { provs := [{ name := "a", cost := fun _ => 1, stats := NewStats 100 },
                  { name := "cand", cost := fun _ => 2, stats := NewStats 100 }],
        sloTarget := 1/100, rngIdx := 0,
        canary := { candidate := "cand", stages := [1/100, 5/100, 25/100],
                    stageIdx := 0, calls := 199 } }) ∧
    ({ provs := [{ name := "a", cost := fun _ => 1, stats := NewStats 100 },
                 { name := "cand", cost := fun _ => 2, stats := NewStats 100 }],
       sloTarget := 1/100, rngIdx := 0,
       canary := { candidate := "cand", stages := [1/100, 5/100, 25/100],
                   stageIdx := 0, calls := 199 } : Engine}.recordResult "cand"
        false).canary.calls = 200 := by
  have h1 := recordResult_spec
    { provs := [{ name := "a", cost := fun _ => 1, stats := NewStats 100 },
                { name := "cand", cost := fun _ => 2, stats := NewStats 100 }],
      sloTarget := 1/100, rngIdx := 0,
      canary := { candidate := "cand", stages := [1/100, 5/100, 25/100],
                  stageIdx := 0, calls := 199 } }
    "other" false { name := "cand", cost := fun _ => 2, stats := NewStats 100 } rfl
  have h2 := recordResult_spec
    { provs := [{ name := "a", cost := fun _ => 1, stats := NewStats 100 },
                { name := "cand", cost := fun _ => 2, stats := NewStats 100 }],
      sloTarget := 1/100, rngIdx := 0,
      canary := { candidate := "cand", stages := [1/100, 5/100, 25/100],
                  stageIdx := 0, calls := 199 } }
    "cand" false { name := "cand", cost := fun _ => 2, stats := NewStats 100 } rfl
  exact ⟨h1.1 (by decide), (h2.2 rfl).1⟩

/-- Claim C6 failing input: `Choose("canary", "m")` re-orders the registered
provider list in place.  `NewEngine` receives `A` then `B`; by `cost("")`
(A = 1, B = 2) construction keeps the order `[A, B]`, but under model `"m"`
(A = 2, B = 1) the `sort.Slice` inside `cheapestPair` rewrites the shared
slice to `[B, A]` — the registration order is lost. -/
theorem choose_canary_reorders_provs :
    ((NewEngine
        [{ name := "A", cost := fun m => if m = "" then 1 else 2, stats := NewStats 100 },
         { name := "B", cost := fun m => if m = "" then 2 else 1, stats := NewStats 100 }]).provs.map
      RProv.name = ["A", "B"]) ∧
    (((NewEngine
        [{ name := "A", cost := fun m => if m = "" then 1 else 2, stats := NewStats 100 },
         { name := "B", cost := fun m => if m = "" then 2 else 1, stats := NewStats 100 }]).choose
        "canary" "m" (fun _ => 1/2)).2.provs.map RProv.name = ["B", "A"]) := by
  constructor
  · rfl
  · rfl

/-- Counterexample to C9 as stated: with exactly one registered provider,
`Choose("canary", model)` returns null, not the sole provider —
`cheapestPair` returns `(nil, nil)` whenever fewer than two providers exist
and the canary branch returns that nil primary. -/
theorem choose_canary_single_provider_counterexample :
    ((NewEngine [{ name := "solo", cost := fun _ => 1, stats := NewStats 100 }]).provs.map
      RProv.name = ["solo"]) ∧
    (((NewEngine [{ name := "solo", cost := fun _ => 1, stats := NewStats 100 }]).choose
        "canary" "m" (fun _ => 0)).1.map RProv.name = none) ∧
    (((NewEngine [{ name := "solo", cost := fun _ => 1, stats := NewStats 100 }]).choose
        "canary" "m" (fun _ => 0)).1.map RProv.name ≠ some "solo") := by
  refine ⟨rfl, rfl, ?_⟩
  intro h
  rw [show ((NewEngine [{ name := "solo", cost := fun _ => 1, stats := NewStats 100 }]).choose
      "canary" "m" (fun _ => 0)).1.map RProv.name = none from rfl] at h
  exact Option.noConfusion h

/-- Claim C9 (amended): whenever fewer than two providers are registered —
empty registry or a single provider — `Choose("canary", model)` returns null
(and leaves the engine unchanged). -/
theorem choose_canary_fewer_than_two (e : Engine) (model : String) (stream : Nat → ℚ)
    (h : e.provs.length < 2) :
    (e.choose "canary" model stream).1 = none ∧
    (e.choose "canary" model stream).2 = e := by
  unfold Engine.choose Engine.cheapestPair
  rw [if_neg (by decide), if_neg (by decide), if_neg (by decide), if_pos rfl, if_pos h]
  exact ⟨rfl, rfl⟩

/-- Witness for C9 (amended) at the empty registry and at a one-provider
registry. -/
theorem choose_canary_fewer_than_two_witness :
    ((NewEngine []).provs.length < 2 ∧
      ((NewEngine []).choose "canary" "m" (fun _ => 0)).1 = none) ∧
    ((NewEngine [{ name := "solo", cost := fun _ => 1, stats := NewStats 100 }]).provs.length < 2 ∧
      ((NewEngine [{ name := "solo", cost := fun _ => 1, stats := NewStats 100 }]).choose
        "canary" "x" (fun _ => 0)).1 = none) :=
  ⟨⟨by decide, (choose_canary_fewer_than_two (NewEngine []) "m" (fun _ => 0) (by decide)).1⟩,
   ⟨by decide, (choose_canary_fewer_than_two
      (NewEngine [{ name := "solo", cost := fun _ => 1, stats := NewStats 100 }]) "x"
      (fun _ => 0) (by decide)).1⟩⟩

/-- Claim C10: `NewEngine` seeds its RNG with the fixed constant 42 — in the
model, both engines read the same ambient draw stream from position 0 — so
two engines built from provider lists with identical names and cost tables
(and the fresh stats `WithResilience` installs) return identical selections
for any common sequence of `Choose` and `RecordResult` calls, the canary
policy included. -/
theorem newEngine_run_deterministic (stream : Nat → ℚ) (calls : List Call)
    (ps1 ps2 : List RProv)
    (hlen : ps1.length = ps2.length)
    (hname : ∀ (i : Nat) (h1 : i < ps1.length) (h2 : i < ps2.length),
      (ps1.get ⟨i, h1⟩).name = (ps2.get ⟨i, h2⟩).name)
    (hcost : ∀ (i : Nat) (h1 : i < ps1.length) (h2 : i < ps2.length) (m : String),
      (ps1.get ⟨i, h1⟩).cost m = (ps2.get ⟨i, h2⟩).cost m)
    (hstats1 : ∀ p ∈ ps1, p.stats = NewStats 100)
    (hstats2 : ∀ p ∈ ps2, p.stats = NewStats 100) :
    (NewEngine ps1).runCalls stream calls = (NewEngine ps2).runCalls stream calls := by
  have heq : ps1 = ps2 := by
    apply List.ext_get hlen
    intro i h1 h2
    apply RProv.ext
    · exact hname i h1 h2
    · funext m
      exact hcost i h1 h2 m
    · rw [hstats1 _ (ps1.get_mem i h1), hstats2 _ (ps2.get_mem i h2)]
  rw [heq]

/-- Witness for C10: two one-provider lists whose cost tables are written
differently but agree pointwise produce identical runs. -/
theorem newEngine_run_deterministic_witness :
    (NewEngine [{ name := "a", cost := fun _ => 1 + 1, stats := NewStats 100 }]).runCalls
        (fun _ => 0) [Call.choose "cheapest" "m"] =
      (NewEngine [{ name := "a", cost := fun _ => 2, stats := NewStats 100 }]).runCalls
        (fun _ => 0) [Call.choose "cheapest" "m"] := by
  apply newEngine_run_deterministic
  · rfl
  · intro i h1 h2
    cases i with
    | zero => rfl
    | succ n => simp at h1
  · intro i h1 h2 m
    cases i with
    | zero => norm_num
    | succ n => simp at h1
  · intro p hp
    rcases List.mem_singleton.mp hp with rfl
    rfl
  · intro p hp
    rcases List.mem_singleton.mp hp with rfl
    rfl

end Router
